import Mathlib

/-!
Verification of the pipeline stepping engine of the 5-stage pipelined CPU
simulator (`src/cpu_hh.tsx`).  The React component's state hooks are embedded
as an explicit `SimState` record and each event handler as a pure function
`SimState → SimState`; reads inside one handler invocation see the pre-call
state (React batches the `set*` calls), so one handler call is one state
transition.  The wall-clock timestamp used in log entries is passed in as an
explicit parameter.
-/

set_option linter.unusedVariables false

namespace CpuHH

/-- Instruction format tags, mirroring the `type` discriminant "R" / "I" / "B". -/
inductive InstType
  | R
  | I
  | B
deriving DecidableEq

/-- Typed instructions, mirroring the tagged variants
`RTypeInst` / `ITypeInst` / `BTypeInst` of the source. -/
inductive Inst
  | Rty (id : Nat) (text : String) (rd rs rt : Nat)
  | Ity (id : Nat) (text : String) (rt base : Nat) (offset : Int)
  | Bty (id : Nat) (text : String) (rs rt : Nat)
deriving DecidableEq

/-- Shared field `id`. -/
def Inst.id : Inst → Nat
  | .Rty i _ _ _ _ => i
  | .Ity i _ _ _ _ => i
  | .Bty i _ _ _ => i

/-- Shared field `text`. -/
def Inst.text : Inst → String
  | .Rty _ t _ _ _ => t
  | .Ity _ t _ _ _ => t
  | .Bty _ t _ _ => t

/-- The discriminant of an instruction. -/
def Inst.type : Inst → InstType
  | .Rty _ _ _ _ _ => .R
  | .Ity _ _ _ _ _ => .I
  | .Bty _ _ _ _ => .B

/-- Placeholder used for the (guarded, hence never out-of-range) unchecked
indexing `instructions[currentIdx]` of the source. -/
def instDefault : Inst := .Rty 0 "" 0 0 0

/-- `const pipelineStages = ["IF", "ID", "EX", "MEM", "WB"]`. -/
def pipelineStages : List String := ["IF", "ID", "EX", "MEM", "WB"]

/-- `const defaultRegisters = Array(32).fill(0)`. -/
def defaultRegisters : List Int := List.replicate 32 0

/-- `const defaultMemory = Array(64).fill(0)`. -/
def defaultMemory : List Int := List.replicate 64 0

/-- The example program `instructionsExampleTyped` of the source. -/
def instructionsExampleTyped : List Inst :=
  [ .Rty 1 "ADD R1, R2, R3" 1 2 3,
    .Rty 2 "SUB R4, R1, R5" 4 1 5,
    .Bty 3 "BEQ R4, R6, LABEL" 4 6,
    .Ity 4 "LW R7, 0(R1)" 7 1 0,
    .Ity 5 "SW R7, 4(R1)" 7 1 4 ]

/-- One iteration of the `instructions.forEach` loop body of
`getPipelineState`: place one enumerated instruction into its stage bucket. -/
def stagePush (cycle : Nat) (state : List (List String)) (p : Nat × Inst) :
    List (List String) :=
  let stageIndex : Int := (cycle : Int) - (p.1 : Int)
  if 0 ≤ stageIndex ∧ stageIndex < (pipelineStages.length : Int) then
    state.set stageIndex.toNat ((state.getD stageIndex.toNat []) ++ [p.2.text])
  else state

/-- `getPipelineState(cycle, instructions, forwarding)`: which instruction
texts occupy which of the 5 stages.  The `forwarding` parameter is accepted
and ignored exactly as in the source. -/
def getPipelineState (cycle : Nat) (instructions : List Inst)
    (_forwarding : Bool) : List (List String) :=
  instructions.enum.foldl (stagePush cycle) (pipelineStages.map fun _ => [])

/-- JS `text.startsWith(pre)`, computed on the underlying character list
(extensionally the same as `String.startsWith`, but reducible in the
kernel). -/
def strStartsWith (s pre : String) : Bool :=
  pre.toList.isPrefixOf s.toList

/-- `detectRawHazard(instA, instB)` for two existing instructions (the
source's leading null-check is only relevant to UI call sites that may pass
`undefined`; the step engine always passes fetched instructions). -/
def detectRawHazard (instA instB : Inst) : Bool :=
  let writes : List Nat :=
    match instA with
    | .Rty _ _ rd _ _ => [rd]
    | .Ity _ text rt _ _ => if strStartsWith text "LW" then [rt] else []
    | .Bty _ _ _ _ => []
  let reads : List Nat :=
    match instB with
    | .Rty _ _ _ rs rt => [rs, rt]
    | .Ity _ _ rt base _ => [rt, base]
    | .Bty _ _ _ _ => []
  writes.any fun w => reads.contains w

/-- `detectControlHazard(inst)`: true iff the instruction is B-type. -/
def detectControlHazard (inst : Inst) : Bool :=
  decide (inst.type = InstType.B)

/-- `isBranchTaken(inst, registers)`. -/
def isBranchTaken (inst : Inst) (registers : List Int) : Bool :=
  match inst with
  | .Bty _ text rs rt =>
      if strStartsWith text "BEQ" then
        registers.getD rs 0 == registers.getD rt 0
      else false
  | _ => false

/-- `predictBranch(inst, registers, history, strategy, saturatingTable)`;
JS-object lookups `history[inst.id] ?? false` and
`saturatingTable[inst.id] ?? 1` become association-list lookups. -/
def predictBranch (inst : Inst) (_registers : List Int)
    (history : List (Nat × Bool)) (strategy : String)
    (saturatingTable : List (Nat × Int)) : Bool :=
  if strategy = "always-taken" then true
  else if strategy = "always-not-taken" then false
  else if strategy = "1bit" then (history.lookup inst.id).getD false
  else if strategy = "2bit" then decide (1 < (saturatingTable.lookup inst.id).getD 1)
  else false

/-- The 2-bit saturating-counter update inlined at the control-hazard branch:
`if taken: min(3, c+1) else max(0, c-1)`. -/
def updateCounter (counter : Int) (taken : Bool) : Int :=
  if taken then min 3 (counter + 1) else max 0 (counter - 1)

/-- One write-back result record as pushed by `setWbResults`. -/
structure WbResult where
  cycle : Nat
  inst : String
  result : String
  registers : List Int
  memory : List Int
deriving DecidableEq

/-- The fields captured by `saveHistory` into one history entry. -/
structure Snapshot where
  cycle : Nat
  registers : List Int
  memory : List Int
  instructions : List Inst
  forwarding : Bool
  explanations : List String
  stalls : Nat
  branchHistory : List (Nat × Bool)
  predictionEnabled : Bool
  flushing : Nat
deriving DecidableEq

/-- The engine-relevant `useState` hooks of `PipelinedCPUSimulator` gathered
into one record (UI-only toggles such as `showForwarding` and the authoring
form's pending state are external collaborators and are not part of the
engine state). -/
structure SimState where
  cycle : Nat
  registers : List Int
  memory : List Int
  instructions : List Inst
  forwarding : Bool
  explanations : List String
  stalls : Nat
  branchHistory : List (Nat × Bool)
  predictionEnabled : Bool
  flushing : Nat
  history : List Snapshot
  execLog : List String
  branchStrategy : String
  wbResults : List WbResult
  saturatingTable : List (Nat × Int)
deriving DecidableEq

/-- The initial hook values (`useState` defaults); `branchStrategy` starts at
`branchStrategies[0].value = "always-not-taken"`. -/
def initState (insts : List Inst) : SimState :=
  { cycle := 0
    registers := defaultRegisters
    memory := defaultMemory
    instructions := insts
    forwarding := true
    explanations := []
    stalls := 0
    branchHistory := []
    predictionEnabled := true
    flushing := 0
    history := []
    execLog := []
    branchStrategy := "always-not-taken"
    wbResults := []
    saturatingTable := [] }

/-- `saveHistory()`: push a snapshot of the captured fields. -/
def saveHistory (s : SimState) : SimState :=
  { s with
    history := s.history ++
      [{ cycle := s.cycle
         registers := s.registers
         memory := s.memory
         instructions := s.instructions
         forwarding := s.forwarding
         explanations := s.explanations
         stalls := s.stalls
         branchHistory := s.branchHistory
         predictionEnabled := s.predictionEnabled
         flushing := s.flushing }] }

/-- `handleStepBack()`: restore the last snapshot (if any) and drop it. -/
def handleStepBack (s : SimState) : SimState :=
  match s.history.getLast? with
  | none => s
  | some prev =>
      { s with
        cycle := prev.cycle
        registers := prev.registers
        memory := prev.memory
        instructions := prev.instructions
        forwarding := prev.forwarding
        explanations := prev.explanations
        stalls := prev.stalls
        branchHistory := prev.branchHistory
        predictionEnabled := prev.predictionEnabled
        flushing := prev.flushing
        history := s.history.dropLast }

/-- `handleApplyInstructions()`: adopt the authored sequence and reset the
listed fields (note: `saturatingTable`, `execLog` and `wbResults` are not
touched by this handler in the source). -/
def handleApplyInstructions (s : SimState) (editInstructions : List Inst) :
    SimState :=
  { s with
    instructions := editInstructions
    cycle := 0
    registers := defaultRegisters
    memory := defaultMemory
    explanations := []
    stalls := 0
    branchHistory := []
    predictionEnabled := true
    flushing := 0
    history := [] }

/-! ### Causing-instruction inference (the flush branch's regex)

The source scans the explanation log for the last entry containing
"Misprediction" or "Control hazard resolved" and applies the regex
`between "(.+?)" and "(.+?)"|at cycle (\d+): (.+?)(?:\.|$)` with JS
leftmost-match semantics (alternative 1 preferred at each start position,
lazy `+?` quantifiers).  The regex is rendered below as an explicit
backtracking search over character lists. -/

/-- Substring test over character lists (JS `String.prototype.includes`). -/
def containsSub (l p : List Char) : Bool :=
  match l with
  | [] => p.isEmpty
  | _ :: rest => p.isPrefixOf l || containsSub rest p

/-- `exp.includes(pat)`. -/
def strContains (s pat : String) : Bool :=
  containsSub s.toList pat.toList

/-- Lazy `(.+?)` followed by the literal `stop`: the capture is the shortest
nonempty prefix after which `stop` occurs; returns the capture and the
remainder following `stop`. -/
def lazyCapture (stop : List Char) : List Char → Option (List Char × List Char)
  | [] => none
  | c :: rest =>
      if stop.isPrefixOf rest then some ([c], rest.drop stop.length)
      else
        match lazyCapture stop rest with
        | some (cap, rem) => some (c :: cap, rem)
        | none => none

/-- The literal `" and "` separating the two captures of alternative 1. -/
def alt1Sep : List Char := "\" and \"".toList

/-- Matches `(.+?)" and "(.+?)"` at the start of `l` with lazy backtracking;
returns the two captures. -/
def alt1Caps : List Char → Option (List Char × List Char)
  | [] => none
  | c :: rest =>
      match (if alt1Sep.isPrefixOf rest then
               lazyCapture "\"".toList (rest.drop alt1Sep.length)
             else none) with
      | some (cap2, _) => some ([c], cap2)
      | none =>
          match alt1Caps rest with
          | some (cap1, cap2) => some (c :: cap1, cap2)
          | none => none

/-- Alternative 1, `between "(.+?)" and "(.+?)"`, anchored at the start of
`l`; returns capture group 1. -/
def tryAlt1 (l : List Char) : Option String :=
  if ("between \"".toList).isPrefixOf l then
    match alt1Caps (l.drop 9) with
    | some (cap1, _) => some (String.mk cap1)
    | none => none
  else none

/-- Lazy `(.+?)(?:\.|$)`: shortest nonempty prefix followed by `'.'` or by
the end of the input. -/
def lazyToDotOrEnd : List Char → Option (List Char)
  | [] => none
  | c :: rest =>
      if rest.head? == some '.' || rest.isEmpty then some [c]
      else
        match lazyToDotOrEnd rest with
        | some cap => some (c :: cap)
        | none => none

/-- Alternative 2, `at cycle (\d+): (.+?)(?:\.|$)`, anchored at the start of
`l`; returns capture group 4. -/
def tryAlt2 (l : List Char) : Option String :=
  if ("at cycle ".toList).isPrefixOf l then
    let rest := l.drop 9
    let ds := rest.takeWhile Char.isDigit
    if ds.isEmpty then none
    else
      let rest2 := rest.drop ds.length
      if (": ".toList).isPrefixOf rest2 then
        (lazyToDotOrEnd (rest2.drop 2)).map String.mk
      else none
  else none

/-- Scan for the leftmost match of the full regex; on a match, reproduce
`match[4] ? String(match[4]) : (match[1] || match[2] || null)` (both the
alternative-1 group 1 and the alternative-2 group 4 are nonempty when they
match, so the JS truthiness tests select exactly these). -/
def matchCausingFrom : List Char → Option String
  | [] => none
  | l@(_ :: rest) =>
      match tryAlt1 l with
      | some cap1 => some cap1
      | none =>
          match tryAlt2 l with
          | some cap4 => some cap4
          | none => matchCausingFrom rest

/-- The `lastControlHazardIdx` computation plus the regex extraction of the
flush branch. -/
def inferCausingInst (explanations : List String) : Option String :=
  let idxs :=
    ((explanations.enum.map fun p =>
        if strContains p.2 "Misprediction" ||
           strContains p.2 "Control hazard resolved" then (p.1 : Int) else -1)).filter
      fun i => i != -1
  match idxs.getLast? with
  | none => none
  | some i =>
      if i == -1 then none
      else matchCausingFrom (explanations.getD i.toNat "").toList

/-- The `flushing > 0` ("Draining") branch of `handleNextCycle`. -/
def drainStep (s : SimState) : SimState :=
  let causingInst := inferCausingInst s.explanations
  let occ := getPipelineState s.cycle s.instructions s.forwarding
  let flushedInsts :=
    (pipelineStages.dropLast.enum.map fun p => occ.getD p.1 []).flatten
  { s with
    cycle := s.cycle + 1
    explanations := s.explanations ++
      ["Flushing pipeline at cycle " ++ toString s.cycle ++
       (match causingInst with
        | some ci => " (caused by: " ++ ci ++ ")"
        | none => "") ++
       (if flushedInsts.length != 0 then
          " | Flushed instructions: " ++ String.intercalate ", " flushedInsts
        else "")]
    flushing := s.flushing - 1 }

/-- The write-back result text synthesized for one instruction. -/
def wbResultText (instObj : Inst) (registers : List Int) : String :=
  match instObj with
  | .Rty _ _ rd rs rt =>
      "R" ++ toString rd ++ " = " ++ toString (registers.getD rs 0) ++
        " op " ++ toString (registers.getD rt 0)
  | .Ity _ text rt base offset =>
      if strStartsWith text "LW" then
        "R" ++ toString rt ++ " loaded from M" ++
          toString (registers.getD base 0 + offset)
      else if strStartsWith text "SW" then
        "M" ++ toString (registers.getD base 0 + offset) ++ " = R" ++ toString rt
      else ""
  | .Bty _ _ _ _ =>
      "Branch evaluated: " ++ toString (isBranchTaken instObj registers)

/-- The tail of `handleNextCycle` (lines 257-281): record write-back results
for the instructions in the WB stage, append the execution-log entry and the
explanation (`explanation || "Cycle N executed without stall."`), and advance
the cycle. -/
def normalAdvance (logEntry explanation : String) (s : SimState) : SimState :=
  let wbStage := pipelineStages.length - 1
  let occ := getPipelineState s.cycle s.instructions s.forwarding
  let wbInsts := occ.getD wbStage []
  let newResults := wbInsts.foldl (fun acc instText =>
      match s.instructions.find? (fun i => i.text == instText) with
      | some instObj =>
          acc ++ [{ cycle := s.cycle
                    inst := instObj.text
                    result := wbResultText instObj s.registers
                    registers := s.registers
                    memory := s.memory : WbResult }]
      | none => acc) []
  { s with
    wbResults := s.wbResults ++ newResults
    execLog := s.execLog ++
      [logEntry ++ (if explanation == "" then
          "Cycle " ++ toString s.cycle ++ " executed without stall."
        else explanation)]
    cycle := s.cycle + 1
    explanations := s.explanations ++
      [if explanation == "" then
          "Cycle " ++ toString s.cycle ++ " executed without stall."
        else explanation] }

/-- The early-return branch taken on a RAW hazard with forwarding disabled
(lines 216-223): record the stall explanation and log entry, bump `stalls`,
leave the cycle alone. -/
def rawStallStep (logEntry : String) (previous current : Inst) (s : SimState) :
    SimState :=
  let explanation :=
    "Stalling at cycle " ++ toString s.cycle ++
      " due to RAW hazard between \"" ++ previous.text ++ "\" and \"" ++
      current.text ++ "\"."
  { s with
    explanations := s.explanations ++ [explanation]
    execLog := s.execLog ++ [logEntry ++ explanation]
    stalls := s.stalls + 1 }

/-- The predictor-state updates performed on evaluating a control hazard
(lines 227-235): the 2-bit strategy stores the saturated counter, the 1-bit
strategy stores the actual outcome; the static strategies store nothing. -/
def predictorUpdate (current : Inst) (taken : Bool) (s : SimState) : SimState :=
  let s1 :=
    if s.branchStrategy = "2bit" then
      { s with
        saturatingTable :=
          (current.id,
           updateCounter ((s.saturatingTable.lookup current.id).getD 1) taken)
            :: s.saturatingTable }
    else s
  if s.branchStrategy = "1bit" then
    { s1 with branchHistory := (current.id, taken) :: s1.branchHistory }
  else s1

/-- The control-hazard branch of `handleNextCycle` (lines 224-254): evaluate
the branch, update the predictor, then mispredict / correct-prediction /
prediction-disabled handling. -/
def controlHazardStep (logEntry : String) (current : Inst) (s : SimState) :
    SimState :=
  let taken := isBranchTaken current s.registers
  let predictedTaken :=
    predictBranch current s.registers s.branchHistory s.branchStrategy
      s.saturatingTable
  let s2 := predictorUpdate current taken s
  if s.predictionEnabled && taken != predictedTaken then
    let explanation :=
      "Misprediction at cycle " ++ toString s.cycle ++ ": predicted " ++
        (if predictedTaken then "taken" else "not taken") ++
        ", actual was " ++ (if taken then "taken" else "not taken") ++
        ". Flushing pipeline."
    { s2 with
      explanations := s2.explanations ++ [explanation]
      execLog := s2.execLog ++ [logEntry ++ explanation]
      stalls := s2.stalls + 2
      flushing := 2 }
  else if s.predictionEnabled then
    normalAdvance logEntry
      ("Branch prediction correct at cycle " ++ toString s.cycle ++ ".") s2
  else
    { s2 with
      explanations := s2.explanations ++
        ["Control hazard resolved by stalling at cycle " ++
           toString s.cycle ++ ". Flushing pipeline."]
      execLog := s2.execLog ++
        [logEntry ++ "Control hazard resolved by stalling at cycle " ++
           toString s.cycle ++ ". Flushing pipeline."]
      stalls := s2.stalls + 2
      flushing := 2 }

/-- `handleNextCycle()`, the advance-one-cycle handler, as a pure transition;
`timestamp` stands for `new Date().toLocaleTimeString()`. -/
def handleNextCycle (timestamp : String) (s : SimState) : SimState :=
  if s.flushing > 0 then drainStep s
  else
    let currentIdx := s.cycle
    let logEntry := "Cycle " ++ toString s.cycle ++ " @ " ++ timestamp ++ ": "
    if 0 < currentIdx ∧ currentIdx < s.instructions.length then
      let current := s.instructions.getD currentIdx instDefault
      let previous := s.instructions.getD (currentIdx - 1) instDefault
      if !s.forwarding && detectRawHazard previous current then
        rawStallStep logEntry previous current s
      else if detectControlHazard current then
        controlHazardStep logEntry current s
      else
        normalAdvance logEntry "" s
    else
      normalAdvance logEntry "" s

/-- Iterated advance: `advanceN ts k` performs `k` advance calls, the `i`-th
timestamped `ts i`. -/
def advanceN (ts : Nat → String) : Nat → SimState → SimState
  | 0, s => s
  | k + 1, s => handleNextCycle (ts k) (advanceN ts k s)

/-- The mnemonic of an instruction's display text: its leading
whitespace-delimited token (e.g. the mnemonic of "BEQZ R1, R2" is "BEQZ"). -/
def mnemonic (text : String) : String :=
  String.mk (text.toList.takeWhile fun c => c ≠ ' ')

/-! ### Helper lemmas -/

/-- An instruction whose discriminant is `B` is a `Bty`. -/
lemma exists_bty_of_type_B {inst : Inst} (h : inst.type = InstType.B) :
    ∃ id text rs rt, inst = .Bty id text rs rt := by
  cases inst <;> simp_all [Inst.type]

/-- A B-type consumer never participates in a RAW hazard: its read set is
empty. -/
lemma detectRawHazard_bty (a : Inst) (id : Nat) (text : String) (rs rt : Nat) :
    detectRawHazard a (.Bty id text rs rt) = false := by
  cases a <;> simp [detectRawHazard]

/-- A `getD` access within bounds yields a member of the list. -/
lemma getD_mem {α : Type} (l : List α) (i : Nat) (d : α) (h : i < l.length) :
    l.getD i d ∈ l := by
  rw [List.getD_eq_getElem l d h]
  exact List.getElem_mem h

/-- `predictorUpdate` touches only the two predictor tables. -/
lemma predictorUpdate_cycle (c : Inst) (t : Bool) (s : SimState) :
    (predictorUpdate c t s).cycle = s.cycle := by
  unfold predictorUpdate
  dsimp only
  split <;> split <;> rfl

lemma predictorUpdate_registers (c : Inst) (t : Bool) (s : SimState) :
    (predictorUpdate c t s).registers = s.registers := by
  unfold predictorUpdate
  dsimp only
  split <;> split <;> rfl

lemma predictorUpdate_memory (c : Inst) (t : Bool) (s : SimState) :
    (predictorUpdate c t s).memory = s.memory := by
  unfold predictorUpdate
  dsimp only
  split <;> split <;> rfl

lemma predictorUpdate_instructions (c : Inst) (t : Bool) (s : SimState) :
    (predictorUpdate c t s).instructions = s.instructions := by
  unfold predictorUpdate
  dsimp only
  split <;> split <;> rfl

lemma predictorUpdate_forwarding (c : Inst) (t : Bool) (s : SimState) :
    (predictorUpdate c t s).forwarding = s.forwarding := by
  unfold predictorUpdate
  dsimp only
  split <;> split <;> rfl

lemma predictorUpdate_explanations (c : Inst) (t : Bool) (s : SimState) :
    (predictorUpdate c t s).explanations = s.explanations := by
  unfold predictorUpdate
  dsimp only
  split <;> split <;> rfl

lemma predictorUpdate_stalls (c : Inst) (t : Bool) (s : SimState) :
    (predictorUpdate c t s).stalls = s.stalls := by
  unfold predictorUpdate
  dsimp only
  split <;> split <;> rfl

lemma predictorUpdate_flushing (c : Inst) (t : Bool) (s : SimState) :
    (predictorUpdate c t s).flushing = s.flushing := by
  unfold predictorUpdate
  dsimp only
  split <;> split <;> rfl

lemma predictorUpdate_execLog (c : Inst) (t : Bool) (s : SimState) :
    (predictorUpdate c t s).execLog = s.execLog := by
  unfold predictorUpdate
  dsimp only
  split <;> split <;> rfl

lemma predictorUpdate_wbResults (c : Inst) (t : Bool) (s : SimState) :
    (predictorUpdate c t s).wbResults = s.wbResults := by
  unfold predictorUpdate
  dsimp only
  split <;> split <;> rfl

/-- Under the 2-bit strategy the table gains the saturated counter entry. -/
lemma predictorUpdate_table_2bit (c : Inst) (t : Bool) (s : SimState)
    (h : s.branchStrategy = "2bit") :
    (predictorUpdate c t s).saturatingTable =
      (c.id, updateCounter ((s.saturatingTable.lookup c.id).getD 1) t)
        :: s.saturatingTable := by
  unfold predictorUpdate
  dsimp only
  rw [h, if_pos rfl, if_neg (by decide : ¬ ("2bit" : String) = "1bit")]

/-- Under any strategy other than 2-bit the table is unchanged. -/
lemma predictorUpdate_table_of_ne (c : Inst) (t : Bool) (s : SimState)
    (h : s.branchStrategy ≠ "2bit") :
    (predictorUpdate c t s).saturatingTable = s.saturatingTable := by
  unfold predictorUpdate
  dsimp only
  rw [if_neg h]
  split <;> rfl

/-- Under the 1-bit strategy the history gains the actual outcome. -/
lemma predictorUpdate_history_1bit (c : Inst) (t : Bool) (s : SimState)
    (h : s.branchStrategy = "1bit") :
    (predictorUpdate c t s).branchHistory = (c.id, t) :: s.branchHistory := by
  unfold predictorUpdate
  dsimp only
  rw [h, if_neg (by decide : ¬ ("1bit" : String) = "2bit"), if_pos rfl]

/-- The frame of `controlHazardStep` on registers and memory. -/
lemma controlHazardStep_frame (le : String) (cur : Inst) (s : SimState) :
    (controlHazardStep le cur s).registers = s.registers ∧
    (controlHazardStep le cur s).memory = s.memory := by
  unfold controlHazardStep
  dsimp only
  split
  · exact ⟨predictorUpdate_registers _ _ _, predictorUpdate_memory _ _ _⟩
  · split
    · exact ⟨predictorUpdate_registers _ _ _, predictorUpdate_memory _ _ _⟩
    · exact ⟨predictorUpdate_registers _ _ _, predictorUpdate_memory _ _ _⟩

/-- `controlHazardStep` leaves the predictor tables exactly as
`predictorUpdate` set them, in all three of its sub-branches. -/
lemma controlHazardStep_tables (le : String) (cur : Inst) (s : SimState) :
    (controlHazardStep le cur s).saturatingTable =
      (predictorUpdate cur (isBranchTaken cur s.registers) s).saturatingTable ∧
    (controlHazardStep le cur s).branchHistory =
      (predictorUpdate cur (isBranchTaken cur s.registers) s).branchHistory := by
  unfold controlHazardStep
  dsimp only
  split
  · exact ⟨rfl, rfl⟩
  · split
    · exact ⟨rfl, rfl⟩
    · exact ⟨rfl, rfl⟩

/-- Outcome of `controlHazardStep` on a misprediction with prediction
enabled: misprediction explanation, `stalls + 2`, `flushing = 2`, cycle
unchanged.  The reported prediction is the one computed from the predictor
state before this call's update. -/
lemma controlHazardStep_mispredict (le : String) (cur : Inst) (s : SimState)
    (hpe : s.predictionEnabled = true)
    (hne : isBranchTaken cur s.registers ≠
      predictBranch cur s.registers s.branchHistory s.branchStrategy
        s.saturatingTable) :
    (controlHazardStep le cur s).explanations = s.explanations ++
      ["Misprediction at cycle " ++ toString s.cycle ++ ": predicted " ++
        (if predictBranch cur s.registers s.branchHistory s.branchStrategy
              s.saturatingTable then "taken" else "not taken") ++
        ", actual was " ++
        (if isBranchTaken cur s.registers then "taken" else "not taken") ++
        ". Flushing pipeline."] ∧
    (controlHazardStep le cur s).stalls = s.stalls + 2 ∧
    (controlHazardStep le cur s).flushing = 2 ∧
    (controlHazardStep le cur s).cycle = s.cycle := by
  have hb : (isBranchTaken cur s.registers !=
      predictBranch cur s.registers s.branchHistory s.branchStrategy
        s.saturatingTable) = true := bne_iff_ne.mpr hne
  unfold controlHazardStep
  dsimp only
  rw [hpe, hb]
  simp only [Bool.true_and, if_true]
  refine ⟨?_, ?_, trivial, ?_⟩
  · rw [predictorUpdate_explanations]
  · rw [predictorUpdate_stalls]
  · rw [predictorUpdate_cycle]

/-- Outcome of `controlHazardStep` with prediction disabled: stall-resolve
explanation, `stalls + 2`, `flushing = 2`, cycle unchanged, independently of
the actual branch outcome. -/
lemma controlHazardStep_disabled (le : String) (cur : Inst) (s : SimState)
    (hpe : s.predictionEnabled = false) :
    (controlHazardStep le cur s).explanations = s.explanations ++
      ["Control hazard resolved by stalling at cycle " ++ toString s.cycle ++
        ". Flushing pipeline."] ∧
    (controlHazardStep le cur s).stalls = s.stalls + 2 ∧
    (controlHazardStep le cur s).flushing = 2 ∧
    (controlHazardStep le cur s).cycle = s.cycle := by
  unfold controlHazardStep
  dsimp only
  rw [hpe]
  simp only [Bool.false_and, Bool.false_eq_true, if_false]
  refine ⟨?_, ?_, trivial, ?_⟩
  · rw [predictorUpdate_explanations]
  · rw [predictorUpdate_stalls]
  · rw [predictorUpdate_cycle]

/-- Dispatch: with no pending flush and a B-type current instruction in
range, the step is exactly `controlHazardStep` (a B-type instruction has an
empty read set, so the RAW branch cannot fire). -/
lemma handleNextCycle_control (ts : String) (s : SimState)
    (hf : s.flushing = 0) (h0 : 0 < s.cycle)
    (hl : s.cycle < s.instructions.length)
    (hB : (s.instructions.getD s.cycle instDefault).type = InstType.B) :
    handleNextCycle ts s =
      controlHazardStep ("Cycle " ++ toString s.cycle ++ " @ " ++ ts ++ ": ")
        (s.instructions.getD s.cycle instDefault) s := by
  obtain ⟨id, text, rs, rt, hcur⟩ := exists_bty_of_type_B hB
  unfold handleNextCycle
  rw [if_neg (by omega : ¬ s.flushing > 0)]
  dsimp only
  rw [if_pos ⟨h0, hl⟩, hcur]
  simp only [detectRawHazard_bty, Bool.and_false, Bool.false_eq_true, if_false,
    detectControlHazard, Inst.type, decide_True, if_true]

/-- Dispatch: with no pending flush, forwarding disabled and a RAW hazard
between the previous and current instruction, the step is exactly
`rawStallStep`. -/
lemma handleNextCycle_raw (ts : String) (s : SimState)
    (hf : s.flushing = 0) (h0 : 0 < s.cycle)
    (hl : s.cycle < s.instructions.length)
    (hfw : s.forwarding = false)
    (hraw : detectRawHazard (s.instructions.getD (s.cycle - 1) instDefault)
      (s.instructions.getD s.cycle instDefault) = true) :
    handleNextCycle ts s =
      rawStallStep ("Cycle " ++ toString s.cycle ++ " @ " ++ ts ++ ": ")
        (s.instructions.getD (s.cycle - 1) instDefault)
        (s.instructions.getD s.cycle instDefault) s := by
  unfold handleNextCycle
  rw [if_neg (by omega : ¬ s.flushing > 0)]
  dsimp only
  rw [if_pos ⟨h0, hl⟩]
  simp only [hfw, hraw, Bool.not_false, Bool.and_self, if_true]

/-- Dispatch: with no pending flush, forwarding on and no B-type instruction
anywhere in the sequence, the step is a plain `normalAdvance`. -/
lemma handleNextCycle_noB (ts : String) (s : SimState)
    (hf : s.flushing = 0) (hfw : s.forwarding = true)
    (hnb : ∀ i ∈ s.instructions, i.type ≠ InstType.B) :
    handleNextCycle ts s =
      normalAdvance ("Cycle " ++ toString s.cycle ++ " @ " ++ ts ++ ": ") "" s := by
  unfold handleNextCycle
  rw [if_neg (by omega : ¬ s.flushing > 0)]
  dsimp only
  by_cases hr : 0 < s.cycle ∧ s.cycle < s.instructions.length
  · rw [if_pos hr]
    have hcur : detectControlHazard (s.instructions.getD s.cycle instDefault) = false := by
      have hne := hnb _ (getD_mem s.instructions s.cycle instDefault hr.2)
      unfold detectControlHazard
      simp only [decide_eq_false_iff_not]
      exact hne
    simp only [hfw, Bool.not_true, Bool.false_and, Bool.false_eq_true, if_false, hcur]
  · rw [if_neg hr]

/-- Shape of `handleStepBack` on a state whose history ends in `sn`. -/
lemma handleStepBack_concat (u : SimState) (sn : Snapshot) (r : List Snapshot)
    (h : u.history = r ++ [sn]) :
    handleStepBack u =
      { u with
        cycle := sn.cycle
        registers := sn.registers
        memory := sn.memory
        instructions := sn.instructions
        forwarding := sn.forwarding
        explanations := sn.explanations
        stalls := sn.stalls
        branchHistory := sn.branchHistory
        predictionEnabled := sn.predictionEnabled
        flushing := sn.flushing
        history := r } := by
  unfold handleStepBack
  rw [h]
  simp

/-- The write-set of a prior instruction as the spec words it: `{rd}` for
R-type, `{rt}` for an I-type whose text starts with "LW", empty otherwise. -/
def writeSet : Inst → List Nat
  | .Rty _ _ rd _ _ => [rd]
  | .Ity _ text rt _ _ => if strStartsWith text "LW" then [rt] else []
  | .Bty _ _ _ _ => []

/-- The read-set of a current instruction as the spec words it: `{rs, rt}`
for R-type, `{rt, base}` for I-type, empty for B-type. -/
def readSet : Inst → List Nat
  | .Rty _ _ _ rs rt => [rs, rt]
  | .Ity _ _ rt base _ => [rt, base]
  | .Bty _ _ _ _ => []

/-- `detectRawHazard` holds exactly when the write-set of the prior
instruction meets the read-set of the current one. -/
lemma detectRawHazard_iff (instA instB : Inst) :
    detectRawHazard instA instB = true ↔
      ∃ r, r ∈ writeSet instA ∧ r ∈ readSet instB := by
  cases instA <;> cases instB <;>
    simp [detectRawHazard, writeSet, readSet, List.any_eq_true]

/-! ### Claim theorems -/

/-- C1: in the Evaluating state, on a B-type current instruction with
prediction enabled and a mispredicted outcome, the step appends the
misprediction explanation, adds exactly 2 to `stalls`, sets
`flushCyclesRemaining = 2` and leaves the cycle unchanged; the prediction
reported (and compared) is the one computed from the predictor state before
this call's own update. -/
theorem c1_mispredict_flush (ts : String) (s : SimState)
    (hf : s.flushing = 0) (h0 : 0 < s.cycle)
    (hl : s.cycle < s.instructions.length)
    (hB : (s.instructions.getD s.cycle instDefault).type = InstType.B)
    (hpe : s.predictionEnabled = true)
    (hmis : predictBranch (s.instructions.getD s.cycle instDefault) s.registers
        s.branchHistory s.branchStrategy s.saturatingTable ≠
      isBranchTaken (s.instructions.getD s.cycle instDefault) s.registers) :
    (handleNextCycle ts s).explanations = s.explanations ++
      ["Misprediction at cycle " ++ toString s.cycle ++ ": predicted " ++
        (if predictBranch (s.instructions.getD s.cycle instDefault) s.registers
              s.branchHistory s.branchStrategy s.saturatingTable
         then "taken" else "not taken") ++
        ", actual was " ++
        (if isBranchTaken (s.instructions.getD s.cycle instDefault) s.registers
         then "taken" else "not taken") ++ ". Flushing pipeline."] ∧
    (handleNextCycle ts s).stalls = s.stalls + 2 ∧
    (handleNextCycle ts s).flushing = 2 ∧
    (handleNextCycle ts s).cycle = s.cycle := by
  rw [handleNextCycle_control ts s hf h0 hl hB]
  exact controlHazardStep_mispredict _ _ s hpe (fun h => hmis h.symm)

/-- A state used by the C1 witness: the example program two advances in,
right before the BEQ with the default always-not-taken strategy. -/
def witC1 : SimState := { initState instructionsExampleTyped with cycle := 2 }

/-- Witness for C1: the spec's concrete misprediction scenario at cycle 2 of
the example program. -/
theorem c1_mispredict_flush_witness :
    witC1.flushing = 0 ∧
    ((handleNextCycle "T" witC1).explanations = witC1.explanations ++
      ["Misprediction at cycle " ++ toString witC1.cycle ++ ": predicted " ++
        (if predictBranch (witC1.instructions.getD witC1.cycle instDefault)
              witC1.registers witC1.branchHistory witC1.branchStrategy
              witC1.saturatingTable
         then "taken" else "not taken") ++
        ", actual was " ++
        (if isBranchTaken (witC1.instructions.getD witC1.cycle instDefault)
              witC1.registers
         then "taken" else "not taken") ++ ". Flushing pipeline."] ∧
    (handleNextCycle "T" witC1).stalls = witC1.stalls + 2 ∧
    (handleNextCycle "T" witC1).flushing = 2 ∧
    (handleNextCycle "T" witC1).cycle = witC1.cycle) :=
  ⟨rfl, c1_mispredict_flush "T" witC1 rfl (by decide) (by decide) (by decide)
    rfl (by decide)⟩

/-- C2: in the Evaluating state, on a B-type current instruction with
prediction disabled, the step adds exactly 2 to `stalls`, sets
`flushCyclesRemaining = 2`, records the "resolved by stalling" explanation
and leaves the cycle unchanged; none of these outcomes mentions the actual
branch outcome, so they are identical whether the branch is taken or not. -/
theorem c2_disabled_stall_flush (ts : String) (s : SimState)
    (hf : s.flushing = 0) (h0 : 0 < s.cycle)
    (hl : s.cycle < s.instructions.length)
    (hB : (s.instructions.getD s.cycle instDefault).type = InstType.B)
    (hpe : s.predictionEnabled = false) :
    (handleNextCycle ts s).stalls = s.stalls + 2 ∧
    (handleNextCycle ts s).flushing = 2 ∧
    (handleNextCycle ts s).explanations = s.explanations ++
      ["Control hazard resolved by stalling at cycle " ++ toString s.cycle ++
        ". Flushing pipeline."] ∧
    (handleNextCycle ts s).cycle = s.cycle := by
  rw [handleNextCycle_control ts s hf h0 hl hB]
  obtain ⟨he, hs, hfl, hc⟩ := controlHazardStep_disabled
    ("Cycle " ++ toString s.cycle ++ " @ " ++ ts ++ ": ")
    (s.instructions.getD s.cycle instDefault) s hpe
  exact ⟨hs, hfl, he, hc⟩

/-- A state used by the C2 witness: as `witC1` but with prediction turned
off and registers making the branch taken. -/
def witC2 : SimState :=
  { initState instructionsExampleTyped with cycle := 2, predictionEnabled := false }

/-- Witness for C2 at a concrete state (branch actually taken: R4 = R6 = 0). -/
theorem c2_disabled_stall_flush_witness :
    witC2.predictionEnabled = false ∧
    ((handleNextCycle "T" witC2).stalls = witC2.stalls + 2 ∧
    (handleNextCycle "T" witC2).flushing = 2 ∧
    (handleNextCycle "T" witC2).explanations = witC2.explanations ++
      ["Control hazard resolved by stalling at cycle " ++ toString witC2.cycle ++
        ". Flushing pipeline."] ∧
    (handleNextCycle "T" witC2).cycle = witC2.cycle) :=
  ⟨rfl, c2_disabled_stall_flush "T" witC2 rfl (by decide) (by decide)
    (by decide) rfl⟩

/-- C3: `detectRawHazard prior current` holds iff the spec's write-set of
`prior` intersects the spec's read-set of `current`; and in the Evaluating
state with forwarding disabled and such a hazard between the previous and
current instruction, the step records the stall explanation, adds exactly 1
to `stalls` and leaves the cycle unchanged. -/
theorem c3_raw_detect_and_stall (ts : String) (s : SimState)
    (instA instB : Inst)
    (hf : s.flushing = 0) (h0 : 0 < s.cycle)
    (hl : s.cycle < s.instructions.length)
    (hfw : s.forwarding = false)
    (hraw : detectRawHazard (s.instructions.getD (s.cycle - 1) instDefault)
      (s.instructions.getD s.cycle instDefault) = true) :
    (detectRawHazard instA instB = true ↔
      ∃ r, r ∈ writeSet instA ∧ r ∈ readSet instB) ∧
    (handleNextCycle ts s).explanations = s.explanations ++
      ["Stalling at cycle " ++ toString s.cycle ++
        " due to RAW hazard between \"" ++
        (s.instructions.getD (s.cycle - 1) instDefault).text ++ "\" and \"" ++
        (s.instructions.getD s.cycle instDefault).text ++ "\"."] ∧
    (handleNextCycle ts s).stalls = s.stalls + 1 ∧
    (handleNextCycle ts s).cycle = s.cycle := by
  refine ⟨detectRawHazard_iff instA instB, ?_, ?_, ?_⟩ <;>
    rw [handleNextCycle_raw ts s hf h0 hl hfw hraw] <;> rfl

/-- A state used by the C3 witness: the example program one advance in with
forwarding disabled (RAW between the ADD and the SUB). -/
def witC3 : SimState :=
  { initState instructionsExampleTyped with cycle := 1, forwarding := false }

/-- Witness for C3: the spec's concrete RAW-stall scenario. -/
theorem c3_raw_detect_and_stall_witness :
    witC3.forwarding = false ∧
    ((detectRawHazard (Inst.Rty 1 "ADD R1, R2, R3" 1 2 3)
        (Inst.Rty 2 "SUB R4, R1, R5" 4 1 5) = true ↔
      ∃ r, r ∈ writeSet (Inst.Rty 1 "ADD R1, R2, R3" 1 2 3) ∧
        r ∈ readSet (Inst.Rty 2 "SUB R4, R1, R5" 4 1 5)) ∧
    (handleNextCycle "T" witC3).explanations = witC3.explanations ++
      ["Stalling at cycle " ++ toString witC3.cycle ++
        " due to RAW hazard between \"" ++
        (witC3.instructions.getD (witC3.cycle - 1) instDefault).text ++
        "\" and \"" ++
        (witC3.instructions.getD witC3.cycle instDefault).text ++ "\"."] ∧
    (handleNextCycle "T" witC3).stalls = witC3.stalls + 1 ∧
    (handleNextCycle "T" witC3).cycle = witC3.cycle) :=
  ⟨rfl, c3_raw_detect_and_stall "T" witC3
    (Inst.Rty 1 "ADD R1, R2, R3" 1 2 3) (Inst.Rty 2 "SUB R4, R1, R5" 4 1 5)
    rfl (by decide) (by decide) rfl (by decide)⟩

/-- C10: on a B-type current instruction in the Evaluating state, the
predictor state is updated from the actual outcome for any value of the
prediction-enabled flag: the 1-bit strategy stores the actual outcome and
the 2-bit strategy stores the saturated counter, keyed by the instruction
id. -/
theorem c10_predictor_updated_when_disabled (ts : String) (s : SimState)
    (hf : s.flushing = 0) (h0 : 0 < s.cycle)
    (hl : s.cycle < s.instructions.length)
    (hB : (s.instructions.getD s.cycle instDefault).type = InstType.B) :
    (s.branchStrategy = "1bit" →
      (handleNextCycle ts s).branchHistory =
        ((s.instructions.getD s.cycle instDefault).id,
         isBranchTaken (s.instructions.getD s.cycle instDefault) s.registers)
          :: s.branchHistory) ∧
    (s.branchStrategy = "2bit" →
      (handleNextCycle ts s).saturatingTable =
        ((s.instructions.getD s.cycle instDefault).id,
         updateCounter
           ((s.saturatingTable.lookup
               (s.instructions.getD s.cycle instDefault).id).getD 1)
           (isBranchTaken (s.instructions.getD s.cycle instDefault) s.registers))
          :: s.saturatingTable) := by
  rw [handleNextCycle_control ts s hf h0 hl hB]
  constructor
  · intro h1
    rw [(controlHazardStep_tables _ _ _).2, predictorUpdate_history_1bit _ _ _ h1]
  · intro h2
    rw [(controlHazardStep_tables _ _ _).1, predictorUpdate_table_2bit _ _ _ h2]

lemma normalAdvance_cycle (a b : String) (s : SimState) :
    (normalAdvance a b s).cycle = s.cycle + 1 := rfl

lemma normalAdvance_flushing (a b : String) (s : SimState) :
    (normalAdvance a b s).flushing = s.flushing := rfl

lemma normalAdvance_forwarding (a b : String) (s : SimState) :
    (normalAdvance a b s).forwarding = s.forwarding := rfl

lemma normalAdvance_instructions (a b : String) (s : SimState) :
    (normalAdvance a b s).instructions = s.instructions := rfl

/-- With no pending flush, forwarding on and no B-type instruction in the
sequence, iterated advance keeps those facts and increments the cycle once
per call. -/
lemma advanceN_noB_inv (ts : Nat → String) (s : SimState)
    (hf : s.flushing = 0) (hfw : s.forwarding = true)
    (hnb : ∀ i ∈ s.instructions, i.type ≠ InstType.B) :
    ∀ k, (advanceN ts k s).cycle = s.cycle + k ∧
      (advanceN ts k s).flushing = 0 ∧
      (advanceN ts k s).forwarding = true ∧
      (advanceN ts k s).instructions = s.instructions := by
  intro k
  induction k with
  | zero => exact ⟨rfl, hf, hfw, rfl⟩
  | succ n ih =>
      obtain ⟨hc, hfl, hfw2, hin⟩ := ih
      have hstep := handleNextCycle_noB (ts n) (advanceN ts n s) hfl hfw2
        (by rw [hin]; exact hnb)
      simp only [advanceN]
      rw [hstep]
      refine ⟨?_, ?_, ?_, ?_⟩
      · rw [normalAdvance_cycle, hc]
        omega
      · rw [normalAdvance_flushing]; exact hfl
      · rw [normalAdvance_forwarding]; exact hfw2
      · rw [normalAdvance_instructions]; exact hin

/-- Bucket contents of the `stagePush` fold: stage `k` collects, in order,
the texts of the enumerated instructions whose stage index equals `k`. -/
lemma foldl_stagePush_getD (c : Nat) :
    ∀ (ps : List (Nat × Inst)) (init : List (List String)), init.length = 5 →
      ∀ k, k < 5 →
      (ps.foldl (stagePush c) init).getD k [] =
        init.getD k [] ++
          (ps.filter fun p => decide ((c : Int) - (p.1 : Int) = (k : Int))).map
            (fun p => p.2.text) := by
  intro ps
  induction ps with
  | nil =>
      intro init h5 k hk
      simp
  | cons p ps ih =>
      intro init h5 k hk
      rw [List.foldl_cons, List.filter_cons]
      have hlen : pipelineStages.length = 5 := rfl
      by_cases hcond : (0 : Int) ≤ (c : Int) - (p.1 : Int) ∧
          (c : Int) - (p.1 : Int) < (pipelineStages.length : Int)
      · have hsp : stagePush c init p =
            init.set ((c : Int) - (p.1 : Int)).toNat
              ((init.getD ((c : Int) - (p.1 : Int)).toNat []) ++ [p.2.text]) := by
          unfold stagePush
          dsimp only
          rw [if_pos hcond]
        have hlen5 : (stagePush c init p).length = 5 := by
          rw [hsp, List.length_set, h5]
        rw [ih (stagePush c init p) hlen5 k hk]
        rw [hlen] at hcond
        by_cases heq : (c : Int) - (p.1 : Int) = (k : Int)
        · have htn : ((c : Int) - (p.1 : Int)).toNat = k := by omega
          have hget : (stagePush c init p).getD k [] =
              init.getD k [] ++ [p.2.text] := by
            rw [hsp, htn, List.getD_eq_getElem?_getD, List.getElem?_set_self]
            · simp
            · omega
          rw [hget, if_pos (by simpa using heq)]
          simp
        · have htn : ((c : Int) - (p.1 : Int)).toNat ≠ k := by omega
          have hget : (stagePush c init p).getD k [] = init.getD k [] := by
            rw [hsp, List.getD_eq_getElem?_getD, List.getElem?_set_ne htn,
              ← List.getD_eq_getElem?_getD]
          rw [hget, if_neg (by simpa using heq)]
      · have hsp : stagePush c init p = init := by
          unfold stagePush
          dsimp only
          rw [if_neg hcond]
        rw [hlen] at hcond
        have heq : ¬ ((c : Int) - (p.1 : Int) = (k : Int)) := by
          intro h
          exact hcond ⟨by omega, by omega⟩
        rw [hsp, ih init h5 k hk, if_neg (by simpa using heq)]

/-- Characterization of one stage's occupancy list. -/
lemma getPipelineState_getD (c : Nat) (l : List Inst) (fw : Bool) (k : Nat)
    (hk : k < 5) :
    (getPipelineState c l fw).getD k [] =
      (l.enum.filter fun p => decide ((c : Int) - (p.1 : Int) = (k : Int))).map
        (fun p => p.2.text) := by
  unfold getPipelineState
  rw [foldl_stagePush_getD c l.enum (pipelineStages.map fun _ => []) rfl k hk]
  have hinit : (pipelineStages.map fun _ => ([] : List String)).getD k [] = [] := by
    interval_cases k <;> rfl
  rw [hinit, List.nil_append]

/-- Enumerating from `n` and filtering for an index below `n` yields
nothing. -/
lemma enumFrom_filter_small {α : Type} :
    ∀ (l : List α) (n m : Nat), m < n →
      (List.enumFrom n l).filter (fun q => decide (q.1 = m)) = [] := by
  intro l
  induction l with
  | nil =>
      intro n m h
      rfl
  | cons a l ih =>
      intro n m h
      simp only [List.enumFrom, List.filter_cons]
      rw [if_neg (by simp only [decide_eq_true_eq]; omega)]
      exact ih (n + 1) m (by omega)

/-- Enumerating from `n` and filtering for the in-range index `n + j` picks
exactly the `j`-th element. -/
lemma enumFrom_filter_single {α : Type} :
    ∀ (l : List α) (n j : Nat), j < l.length → ∀ d : α,
      (List.enumFrom n l).filter (fun q => decide (q.1 = n + j)) =
        [(n + j, l.getD j d)] := by
  intro l
  induction l with
  | nil =>
      intro n j hj d
      simp at hj
  | cons a l ih =>
      intro n j hj d
      simp only [List.enumFrom, List.filter_cons]
      cases j with
      | zero =>
          rw [if_pos (by simp)]
          rw [enumFrom_filter_small l (n + 1) (n + 0) (by omega)]
          simp
      | succ j2 =>
          rw [if_neg (by simp only [decide_eq_true_eq]; omega)]
          have hx : n + (j2 + 1) = (n + 1) + j2 := by omega
          simp only [hx]
          rw [ih (n + 1) j2 (by simpa using hj) d]
          rfl

/-- At cycle `N + 3` the write-back stage holds exactly the text of the last
instruction of an `N`-instruction sequence. -/
lemma wb_occupancy (insts : List Inst) (N : Nat) (hlen : insts.length = N)
    (hN : 1 ≤ N) :
    (getPipelineState (N + 3) insts true).getD 4 [] =
      [(insts.getD (N - 1) instDefault).text] := by
  rw [getPipelineState_getD (N + 3) insts true 4 (by omega)]
  have hfc : (insts.enum.filter fun p =>
        decide (((N + 3 : Nat) : Int) - (p.1 : Int) = ((4 : Nat) : Int))) =
      insts.enum.filter fun p => decide (p.1 = 0 + (N - 1)) := by
    apply List.filter_congr
    intro q _
    rw [decide_eq_decide]
    omega
  rw [hfc, List.enum_eq_enumFrom,
    enumFrom_filter_single insts 0 (N - 1) (by omega) instDefault]
  simp

/-- `find?` by display text succeeds and returns an instruction with that
text whenever some instruction in the list has it. -/
lemma find?_text (l : List Inst) (txt : String) (i : Inst) (hmem : i ∈ l)
    (htxt : i.text = txt) :
    ∃ y, l.find? (fun j => j.text == txt) = some y ∧ y.text = txt := by
  have hs : (l.find? (fun j => j.text == txt)).isSome := by
    rw [List.find?_isSome]
    exact ⟨i, hmem, by simp [htxt]⟩
  rcases Option.isSome_iff_exists.mp hs with ⟨y, hy⟩
  have hp := List.find?_some hy
  exact ⟨y, hy, by simpa using hp⟩

/-- When the write-back stage holds a single text present in the sequence,
`normalAdvance` appends exactly one write-back result for it. -/
lemma normalAdvance_wb_single (le ex : String) (s : SimState) (txt : String)
    (hocc : (getPipelineState s.cycle s.instructions s.forwarding).getD
        (pipelineStages.length - 1) [] = [txt])
    (i : Inst) (hmem : i ∈ s.instructions) (htxt : i.text = txt) :
    ∃ e : WbResult, (normalAdvance le ex s).wbResults = s.wbResults ++ [e] ∧
      e.cycle = s.cycle ∧ e.inst = txt := by
  obtain ⟨y, hy, hyt⟩ := find?_text s.instructions txt i hmem htxt
  unfold normalAdvance
  dsimp only
  rw [hocc, List.foldl_cons, List.foldl_nil, hy]
  refine ⟨⟨s.cycle, y.text, wbResultText y s.registers, s.registers, s.memory⟩,
    ?_, rfl, hyt⟩
  simp

/-- The invariant of the 2-bit saturating-counter table: every stored
counter lies in [0, 3]. -/
def tableInv (t : List (Nat × Int)) : Prop :=
  ∀ id c, t.lookup id = some c → 0 ≤ c ∧ c ≤ 3

/-- The counter read for any id (with the default 1) lies in [0, 3] when the
table invariant holds. -/
lemma lookup_getD_bounds (t : List (Nat × Int)) (hinv : tableInv t) (id : Nat) :
    0 ≤ (t.lookup id).getD 1 ∧ (t.lookup id).getD 1 ≤ 3 := by
  cases h : t.lookup id with
  | none => exact ⟨by decide, by decide⟩
  | some c => simpa using hinv id c h

/-- A saturated update of an in-range counter stays in range. -/
lemma updateCounter_bounds (c : Int) (tk : Bool) (h0 : 0 ≤ c) (h3 : c ≤ 3) :
    0 ≤ updateCounter c tk ∧ updateCounter c tk ≤ 3 := by
  unfold updateCounter
  split <;> constructor <;> omega

/-- Across one advance call the 2-bit table is either unchanged or gains one
saturated-counter entry computed from the pre-call table. -/
lemma handleNextCycle_table_shape (ts : String) (s : SimState) :
    (handleNextCycle ts s).saturatingTable = s.saturatingTable ∨
    ∃ id tk, (handleNextCycle ts s).saturatingTable =
      (id, updateCounter ((s.saturatingTable.lookup id).getD 1) tk)
        :: s.saturatingTable := by
  unfold handleNextCycle
  dsimp only
  split
  · exact Or.inl rfl
  · split
    · split
      · exact Or.inl rfl
      · split
        · by_cases hstrat : s.branchStrategy = "2bit"
          · refine Or.inr ⟨(s.instructions.getD s.cycle instDefault).id,
              isBranchTaken (s.instructions.getD s.cycle instDefault) s.registers, ?_⟩
            rw [(controlHazardStep_tables _ _ _).1,
              predictorUpdate_table_2bit _ _ _ hstrat]
          · refine Or.inl ?_
            rw [(controlHazardStep_tables _ _ _).1,
              predictorUpdate_table_of_ne _ _ _ hstrat]
        · exact Or.inl rfl
    · exact Or.inl rfl

/-- The table invariant is preserved by every advance call. -/
lemma tableInv_preserved (ts : String) (s : SimState)
    (hinv : tableInv s.saturatingTable) :
    tableInv (handleNextCycle ts s).saturatingTable := by
  rcases handleNextCycle_table_shape ts s with h | ⟨id, tk, h⟩
  · rw [h]; exact hinv
  · rw [h]
    intro id2 c2 hl2
    simp only [List.lookup] at hl2
    split at hl2
    · cases hl2
      exact updateCounter_bounds _ _ (lookup_getD_bounds _ hinv id).1
        (lookup_getD_bounds _ hinv id).2
    · exact hinv id2 c2 hl2

/-- C5: under the 2-bit strategy every table counter stays in [0, 3] across
any advance call; an id never updated reads as counter 1; prediction is
"taken" exactly when the stored (or default) counter exceeds 1; and the
update saturates at 3 upward on a taken branch and at 0 downward on a
not-taken branch. -/
theorem c5_twobit_counter_invariant (ts : String) (s : SimState)
    (hstrat : s.branchStrategy = "2bit")
    (hinv : tableInv s.saturatingTable) :
    tableInv (handleNextCycle ts s).saturatingTable ∧
    (∀ id, s.saturatingTable.lookup id = none →
      (s.saturatingTable.lookup id).getD 1 = 1) ∧
    (∀ inst registers,
      predictBranch inst registers s.branchHistory "2bit" s.saturatingTable =
        decide (1 < (s.saturatingTable.lookup inst.id).getD 1)) ∧
    (∀ c : Int, updateCounter c true = min 3 (c + 1) ∧
      updateCounter c false = max 0 (c - 1)) := by
  refine ⟨tableInv_preserved ts s hinv, ?_, ?_, ?_⟩
  · intro id h
    rw [h]
    rfl
  · intro inst registers
    rfl
  · intro c
    exact ⟨rfl, rfl⟩

/-- C4: for an `N`-instruction sequence (N ≥ 1) with no B-type instruction
and no adjacent RAW conflict, forwarding enabled, starting from the initial
engine state, each of `N + 4` consecutive advance calls increments the cycle
by exactly 1; during the last of them the last instruction occupies the
write-back stage (its stage index at cycle `N + 3` is 4), and exactly one
write-back result is recorded for it at that cycle. -/
theorem c4_pipeline_drain (ts : Nat → String) (s : SimState)
    (insts : List Inst) (N : Nat)
    (hins : s.instructions = insts) (hlen : insts.length = N) (hN : 1 ≤ N)
    (hcyc : s.cycle = 0) (hf : s.flushing = 0) (hfw : s.forwarding = true)
    (hnb : ∀ i ∈ insts, i.type ≠ InstType.B)
    (hraw : ∀ j, j + 1 < N → detectRawHazard (insts.getD j instDefault)
      (insts.getD (j + 1) instDefault) = false) :
    (∀ k, k < N + 4 →
      (advanceN ts (k + 1) s).cycle = (advanceN ts k s).cycle + 1) ∧
    (advanceN ts (N + 4) s).cycle = N + 4 ∧
    (getPipelineState (N + 3) insts true).getD 4 [] =
      [(insts.getD (N - 1) instDefault).text] ∧
    (∃ e : WbResult,
      (advanceN ts (N + 4) s).wbResults =
        (advanceN ts (N + 3) s).wbResults ++ [e] ∧
      e.cycle = N + 3 ∧ e.inst = (insts.getD (N - 1) instDefault).text) := by
  have hnb2 : ∀ i ∈ s.instructions, i.type ≠ InstType.B := by
    rw [hins]; exact hnb
  have hinv := advanceN_noB_inv ts s hf hfw hnb2
  refine ⟨?_, ?_, wb_occupancy insts N hlen hN, ?_⟩
  · intro k _
    obtain ⟨hc, hfl, hfw2, hin⟩ := hinv k
    have hstep := handleNextCycle_noB (ts k) (advanceN ts k s) hfl hfw2
      (by rw [hin]; exact hnb2)
    simp only [advanceN]
    rw [hstep, normalAdvance_cycle]
  · obtain ⟨hc, _, _, _⟩ := hinv (N + 4)
    rw [hc, hcyc]
    omega
  · obtain ⟨hc3, hfl3, hfw3, hin3⟩ := hinv (N + 3)
    have hstep := handleNextCycle_noB (ts (N + 3)) (advanceN ts (N + 3) s)
      hfl3 hfw3 (by rw [hin3]; exact hnb2)
    have hocc : (getPipelineState (advanceN ts (N + 3) s).cycle
        (advanceN ts (N + 3) s).instructions
        (advanceN ts (N + 3) s).forwarding).getD
          (pipelineStages.length - 1) [] =
        [(insts.getD (N - 1) instDefault).text] := by
      rw [hc3, hcyc, hin3, hins, hfw3, Nat.zero_add]
      exact wb_occupancy insts N hlen hN
    have hmem : insts.getD (N - 1) instDefault ∈
        (advanceN ts (N + 3) s).instructions := by
      rw [hin3, hins]
      exact getD_mem insts (N - 1) instDefault (by omega)
    have hunf : advanceN ts (N + 4) s =
        handleNextCycle (ts (N + 3)) (advanceN ts (N + 3) s) := rfl
    rw [hunf, hstep]
    obtain ⟨e, he, hec, hei⟩ := normalAdvance_wb_single _ ""
      (advanceN ts (N + 3) s) _ hocc _ hmem rfl
    refine ⟨e, he, ?_, hei⟩
    rw [hec, hc3, hcyc]
    omega

/-- A two-instruction RAW-free, branch-free program for the C4 witness. -/
def instsW4 : List Inst :=
  [ .Rty 1 "ADD R1, R2, R3" 1 2 3,
    .Rty 2 "ADD R4, R5, R6" 4 5 6 ]

/-- Witness for C4 with `N = 2`: six advance calls drain the pipeline and the
second ADD retires at cycle 5. -/
theorem c4_pipeline_drain_witness :
    (initState instsW4).cycle = 0 ∧
    ((∀ k, k < 2 + 4 →
      (advanceN (fun _ => "T") (k + 1) (initState instsW4)).cycle =
        (advanceN (fun _ => "T") k (initState instsW4)).cycle + 1) ∧
    (advanceN (fun _ => "T") (2 + 4) (initState instsW4)).cycle = 2 + 4 ∧
    (getPipelineState (2 + 3) instsW4 true).getD 4 [] =
      [(instsW4.getD (2 - 1) instDefault).text] ∧
    (∃ e : WbResult,
      (advanceN (fun _ => "T") (2 + 4) (initState instsW4)).wbResults =
        (advanceN (fun _ => "T") (2 + 3) (initState instsW4)).wbResults ++ [e] ∧
      e.cycle = 2 + 3 ∧ e.inst = (instsW4.getD (2 - 1) instDefault).text)) :=
  ⟨rfl, c4_pipeline_drain (fun _ => "T") (initState instsW4) instsW4 2
    rfl rfl (by decide) rfl rfl rfl (by decide)
    (by
      intro j hj
      have hj0 : j = 0 := by omega
      subst hj0
      decide)⟩

/-- A state used by the C5 witness: the example program under the 2-bit
strategy with an empty (initial) table. -/
def witC5 : SimState :=
  { initState instructionsExampleTyped with branchStrategy := "2bit" }

/-- Witness for C5 at a concrete state. -/
theorem c5_twobit_counter_invariant_witness :
    witC5.branchStrategy = "2bit" ∧
    (tableInv (handleNextCycle "T" witC5).saturatingTable ∧
    (∀ id, witC5.saturatingTable.lookup id = none →
      (witC5.saturatingTable.lookup id).getD 1 = 1) ∧
    (∀ inst registers,
      predictBranch inst registers witC5.branchHistory "2bit"
        witC5.saturatingTable =
        decide (1 < (witC5.saturatingTable.lookup inst.id).getD 1)) ∧
    (∀ c : Int, updateCounter c true = min 3 (c + 1) ∧
      updateCounter c false = max 0 (c - 1))) :=
  ⟨rfl, c5_twobit_counter_invariant "T" witC5 rfl
    (by intro id c h; simp [List.lookup] at h)⟩

/-- A state used by the C10 witness: prediction disabled, 1-bit strategy,
sitting on the BEQ of the example program. -/
def witC10 : SimState :=
  { initState instructionsExampleTyped with
      cycle := 2, predictionEnabled := false, branchStrategy := "1bit" }

/-- Witness for C10: the 1-bit history is written even though prediction is
disabled. -/
theorem c10_predictor_updated_when_disabled_witness :
    witC10.predictionEnabled = false ∧
    ((witC10.branchStrategy = "1bit" →
      (handleNextCycle "T" witC10).branchHistory =
        ((witC10.instructions.getD witC10.cycle instDefault).id,
         isBranchTaken (witC10.instructions.getD witC10.cycle instDefault)
           witC10.registers) :: witC10.branchHistory) ∧
    (witC10.branchStrategy = "2bit" →
      (handleNextCycle "T" witC10).saturatingTable =
        ((witC10.instructions.getD witC10.cycle instDefault).id,
         updateCounter
           ((witC10.saturatingTable.lookup
               (witC10.instructions.getD witC10.cycle instDefault).id).getD 1)
           (isBranchTaken (witC10.instructions.getD witC10.cycle instDefault)
             witC10.registers)) :: witC10.saturatingTable)) :=
  ⟨rfl, c10_predictor_updated_when_disabled "T" witC10 rfl (by decide)
    (by decide) (by decide)⟩

/-- C9: no advance call, in either the Draining or the Evaluating state,
mutates the registers array or the memory array. -/
theorem c9_registers_memory_frame (ts : String) (s : SimState) :
    (handleNextCycle ts s).registers = s.registers ∧
    (handleNextCycle ts s).memory = s.memory := by
  unfold handleNextCycle
  dsimp only
  split
  · exact ⟨rfl, rfl⟩
  · split
    · split
      · exact ⟨rfl, rfl⟩
      · split
        · exact controlHazardStep_frame _ _ _
        · exact ⟨rfl, rfl⟩
    · exact ⟨rfl, rfl⟩

/-- C6 counterexample: `isBranchTaken` tests `text.startsWith "BEQ")`, not
that the mnemonic is exactly "BEQ"; the B-type instruction "BEQZ R1, R2"
(mnemonic "BEQZ") is resolved as taken on an all-zero register file, so the
claimed iff fails. -/
theorem c6_counterexample :
    ¬ (isBranchTaken (Inst.Bty 9 "BEQZ R1, R2" 1 2) defaultRegisters = true ↔
       ((Inst.Bty 9 "BEQZ R1, R2" 1 2).type = InstType.B ∧
        mnemonic (Inst.Bty 9 "BEQZ R1, R2" 1 2).text = "BEQ" ∧
        defaultRegisters.getD 1 0 = defaultRegisters.getD 2 0)) := by
  decide

/-- C6 amended: `isBranchTaken(inst, registers)` returns true iff `inst` is
B-type, its display text starts with "BEQ", and `registers[rs] = registers[rt]`;
every B-type instruction whose text does not start with "BEQ" is never
resolved as taken. -/
theorem c6_isBranchTaken_characterization (inst : Inst) (registers : List Int) :
    isBranchTaken inst registers = true ↔
      ∃ id text rs rt, inst = Inst.Bty id text rs rt ∧
        strStartsWith text "BEQ" = true ∧
        registers.getD rs 0 = registers.getD rt 0 := by
  cases inst with
  | Rty id text rd rs rt => simp [isBranchTaken]
  | Ity id text rt base offset => simp [isBranchTaken]
  | Bty id text rs rt =>
      simp only [isBranchTaken]
      split
      · next hsw =>
          simp only [beq_iff_eq, Inst.Bty.injEq]
          constructor
          · intro hr
            exact ⟨id, text, rs, rt, ⟨rfl, rfl, rfl, rfl⟩, hsw, hr⟩
          · rintro ⟨i, t, r1, r2, ⟨rfl, rfl, rfl, rfl⟩, _, hr⟩
            exact hr
      · next hsw =>
          simp only [Bool.false_eq_true, false_iff, Inst.Bty.injEq, not_exists]
          rintro i t r1 r2 ⟨⟨rfl, rfl, rfl, rfl⟩, hs2, _⟩
          exact hsw hs2

/-- C7 counterexample: `handleApplyInstructions` does not reset the 2-bit
saturating-counter table: starting from a state whose table maps id 3 to
counter 3, the table still holds that entry after applying a new sequence,
whereas its initial value is the empty table. -/
theorem c7_counterexample :
    (handleApplyInstructions
        { initState instructionsExampleTyped with saturatingTable := [(3, 3)] }
        instructionsExampleTyped).saturatingTable = [(3, 3)] ∧
    ([(3, 3)] : List (Nat × Int)) ≠ (initState instructionsExampleTyped).saturatingTable := by
  constructor
  · rfl
  · simp [initState]

/-- C7 amended: applying a new instruction sequence adopts the sequence and
resets cycle, registers, memory, explanations, stalls, the 1-bit prediction
history, the prediction flag, flushCyclesRemaining and the step-back history
to their initial values; the 2-bit saturating-counter table is left
unchanged. -/
theorem c7_applyInstructions_resets (s : SimState) (newInsts : List Inst) :
    (handleApplyInstructions s newInsts).instructions = newInsts ∧
    (handleApplyInstructions s newInsts).cycle = 0 ∧
    (handleApplyInstructions s newInsts).registers = defaultRegisters ∧
    (handleApplyInstructions s newInsts).memory = defaultMemory ∧
    (handleApplyInstructions s newInsts).explanations = [] ∧
    (handleApplyInstructions s newInsts).stalls = 0 ∧
    (handleApplyInstructions s newInsts).branchHistory = [] ∧
    (handleApplyInstructions s newInsts).predictionEnabled = true ∧
    (handleApplyInstructions s newInsts).flushing = 0 ∧
    (handleApplyInstructions s newInsts).history = [] ∧
    (handleApplyInstructions s newInsts).saturatingTable = s.saturatingTable :=
  ⟨rfl, rfl, rfl, rfl, rfl, rfl, rfl, rfl, rfl, rfl, rfl⟩

/-- C8 amended: `saveHistory` captures cycle, registers, memory,
instructions, the forwarding flag, explanations, stalls, the 1-bit
predictor history, the prediction flag and the flush counter — but not the
2-bit saturating-counter table (nor the execution log, write-back results
or strategy selection); `handleStepBack` restores exactly the captured
contents of the most recent snapshot, pops it (LIFO) and leaves the
uncaptured fields untouched; and a restore immediately after a snapshot is
the identity on the whole state. -/
theorem c8_snapshot_restore (s t : SimState) (snap : Snapshot)
    (rest : List Snapshot) (ht : t.history = rest ++ [snap]) :
    handleStepBack (saveHistory s) = s ∧
    ((handleStepBack t).cycle = snap.cycle ∧
     (handleStepBack t).registers = snap.registers ∧
     (handleStepBack t).memory = snap.memory ∧
     (handleStepBack t).instructions = snap.instructions ∧
     (handleStepBack t).forwarding = snap.forwarding ∧
     (handleStepBack t).explanations = snap.explanations ∧
     (handleStepBack t).stalls = snap.stalls ∧
     (handleStepBack t).branchHistory = snap.branchHistory ∧
     (handleStepBack t).predictionEnabled = snap.predictionEnabled ∧
     (handleStepBack t).flushing = snap.flushing ∧
     (handleStepBack t).history = rest) ∧
    ((handleStepBack t).saturatingTable = t.saturatingTable ∧
     (handleStepBack t).execLog = t.execLog ∧
     (handleStepBack t).wbResults = t.wbResults ∧
     (handleStepBack t).branchStrategy = t.branchStrategy) := by
  refine ⟨?_, ?_, ?_⟩
  · have h := handleStepBack_concat (saveHistory s)
      ⟨s.cycle, s.registers, s.memory, s.instructions, s.forwarding,
       s.explanations, s.stalls, s.branchHistory, s.predictionEnabled,
       s.flushing⟩ s.history rfl
    rw [h]
    cases s
    rfl
  · have h := handleStepBack_concat t snap rest ht
    rw [h]
    exact ⟨rfl, rfl, rfl, rfl, rfl, rfl, rfl, rfl, rfl, rfl, rfl⟩
  · have h := handleStepBack_concat t snap rest ht
    rw [h]
    exact ⟨rfl, rfl, rfl, rfl⟩

/-- A concrete snapshot used by the C8 witness. -/
def snapX : Snapshot :=
  ⟨7, defaultRegisters, defaultMemory, [], true, ["e"], 3, [(1, true)], false, 1⟩

/-- Witness for C8 at a concrete state whose history is `[snapX]`. -/
theorem c8_snapshot_restore_witness :
    ({ initState [] with history := [snapX] } : SimState).history = [] ++ [snapX] ∧
    (handleStepBack (saveHistory (initState instructionsExampleTyped)) =
        initState instructionsExampleTyped ∧
     ((handleStepBack { initState [] with history := [snapX] }).cycle = snapX.cycle ∧
      (handleStepBack { initState [] with history := [snapX] }).registers = snapX.registers ∧
      (handleStepBack { initState [] with history := [snapX] }).memory = snapX.memory ∧
      (handleStepBack { initState [] with history := [snapX] }).instructions = snapX.instructions ∧
      (handleStepBack { initState [] with history := [snapX] }).forwarding = snapX.forwarding ∧
      (handleStepBack { initState [] with history := [snapX] }).explanations = snapX.explanations ∧
      (handleStepBack { initState [] with history := [snapX] }).stalls = snapX.stalls ∧
      (handleStepBack { initState [] with history := [snapX] }).branchHistory = snapX.branchHistory ∧
      (handleStepBack { initState [] with history := [snapX] }).predictionEnabled = snapX.predictionEnabled ∧
      (handleStepBack { initState [] with history := [snapX] }).flushing = snapX.flushing ∧
      (handleStepBack { initState [] with history := [snapX] }).history = []) ∧
     ((handleStepBack { initState [] with history := [snapX] }).saturatingTable =
        ({ initState [] with history := [snapX] } : SimState).saturatingTable ∧
      (handleStepBack { initState [] with history := [snapX] }).execLog =
        ({ initState [] with history := [snapX] } : SimState).execLog ∧
      (handleStepBack { initState [] with history := [snapX] }).wbResults =
        ({ initState [] with history := [snapX] } : SimState).wbResults ∧
      (handleStepBack { initState [] with history := [snapX] }).branchStrategy =
        ({ initState [] with history := [snapX] } : SimState).branchStrategy)) :=
  ⟨rfl, c8_snapshot_restore (initState instructionsExampleTyped)
      { initState [] with history := [snapX] } snapX [] rfl⟩

/-- The C8 counterexample state: the example program about to evaluate its
BEQ under the 2-bit strategy, with an empty (initial) saturating table. -/
def witC8bad : SimState :=
  { initState instructionsExampleTyped with cycle := 2, branchStrategy := "2bit" }

/-- C8 counterexample: the snapshot does not capture the full engine state.
Snapshot `witC8bad`, advance once (the BEQ updates the 2-bit saturating
table), then restore the snapshot: the ten captured fields come back (cycle
and the 1-bit history shown here), but the 2-bit saturating-counter table —
part of the predictor state — keeps its post-advance contents instead of the
captured pre-advance contents, so restore does not replace the live state
with exactly the snapshot. -/
theorem c8_counterexample :
    (handleStepBack (handleNextCycle "T" (saveHistory witC8bad))).cycle =
      witC8bad.cycle ∧
    (handleStepBack (handleNextCycle "T" (saveHistory witC8bad))).branchHistory =
      witC8bad.branchHistory ∧
    (handleStepBack (handleNextCycle "T" (saveHistory witC8bad))).saturatingTable ≠
      witC8bad.saturatingTable := by
  refine ⟨?_, ?_, ?_⟩ <;> decide

end CpuHH
